import Mathlib

/-!
Verification of the storage core of the Ysoding/bitcask repository
(record codec, data-file read/write, storage backends, index), as a
shallow embedding in Lean 4.

Machine integers are modelled as `Nat`; a byte is a `Nat` below 256
(`Vec<u8>` becomes `List Nat` together with a bound hypothesis where
it matters).  Fallible Rust code returning `Result` is modelled with
explicit outcome types; a Rust `panic` (from `panic!`, `unwrap`, or
`unimplemented!`) is modelled as a distinct `panic` outcome, since it
aborts rather than returning an error to the caller.
-/

namespace Bitcask

/-! ## Byte-buffer primitives

`windowD xs n` models reading `n` bytes out of a zero-initialised
buffer from the byte sequence `xs`: bytes past the end of `xs` stay 0.
This is the state of a `BytesMut::zeroed(n)` buffer after
`read_at`-style positional reads (which copy the available bytes and
leave the rest of the buffer untouched). -/

def windowD (xs : List Nat) (n : Nat) : List Nat :=
  (List.range n).map (fun i => xs.getD i 0)

/-- The four little-endian bytes of a 32-bit value (`u32::to_le_bytes`). -/
def toLE4 (n : Nat) : List Nat :=
  [n % 256, n / 256 % 256, n / 65536 % 256, n / 16777216 % 256]

/-- Reads a `u32` from the first four bytes, little endian (`get_u32_le`). -/
def leBytesToU32 (l : List Nat) : Nat :=
  l.getD 0 0 + 256 * l.getD 1 0 + 65536 * l.getD 2 0 + 16777216 * l.getD 3 0

/-! ## LEB128 length delimiters (prost `encode_length_delimiter` /
`decode_length_delimiter` / `length_delimiter_len`) -/

/-- Worker for the LEB128 encoder, structurally recursive on a fuel
argument so that it evaluates by kernel reduction; the fuel never runs
out when it starts at least at `n` (each step divides `n` by 128). -/
def lebEncodeAux : Nat → Nat → List Nat
  | 0, n => [n]
  | fuel + 1, n => if n < 128 then [n] else (n % 128 + 128) :: lebEncodeAux fuel (n / 128)

/-- Minimal unsigned LEB128 encoding, as produced by prost's
`encode_length_delimiter`: emit 7-bit groups, least significant first,
setting the continuation bit on every byte but the last. -/
def lebEncode (n : Nat) : List Nat :=
  lebEncodeAux n n

theorem lebEncodeAux_irrel : ∀ f1 n f2, n ≤ f1 → n ≤ f2 →
    lebEncodeAux f1 n = lebEncodeAux f2 n := by
  intro f1
  induction f1 with
  | zero =>
    intro n f2 h1 _
    have hn : n = 0 := by omega
    subst hn
    cases f2 <;> simp [lebEncodeAux]
  | succ f ih =>
    intro n f2 h1 h2
    cases f2 with
    | zero =>
      have hn : n = 0 := by omega
      subst hn
      simp [lebEncodeAux]
    | succ f2 =>
      simp only [lebEncodeAux]
      by_cases h : n < 128
      · simp [h]
      · simp only [h, if_false]
        have hdiv : n / 128 < n := Nat.div_lt_self (by omega) (by omega)
        rw [ih (n / 128) f2 (by omega) (by omega)]

/-- prost `length_delimiter_len`: the byte length of the varint encoding. -/
def lengthDelimiterLen (n : Nat) : Nat :=
  (lebEncode n).length

/-- Worker for LEB128 decoding: walks the buffer accumulating 7-bit
groups; fails (`none`) if the buffer is exhausted mid-varint or the
varint exceeds the 10-byte maximum, which prost reports as a
`DecodeError` (the caller `unwrap`s it, i.e. panics). -/
def lebDecodeGo : List Nat → Nat → Nat → Option (Nat × Nat)
  | [], _, _ => none
  | b :: rest, count, acc =>
    if 10 ≤ count then none
    else if b < 128 then some (acc + b * 128 ^ count, count + 1)
    else lebDecodeGo rest (count + 1) (acc + b % 128 * 128 ^ count)

/-- prost `decode_length_delimiter` on a byte buffer: returns the decoded
value and the number of bytes consumed. -/
def decodeLengthDelimiter (bytes : List Nat) : Option (Nat × Nat) :=
  lebDecodeGo bytes 0 0

/-! ## CRC-32 (crc32fast: standard IEEE, reflected, init and final xor
`0xFFFFFFFF`) -/

/-- One bit step of reflected CRC-32: shift right, xor the polynomial
`0xEDB88320` when the low bit was set. -/
def crcRound (c : Nat) : Nat :=
  if c % 2 = 1 then c / 2 ^^^ 0xEDB88320 else c / 2

/-- Eight bit steps: processing of one byte already xored into the state. -/
def crcStep (c : Nat) : Nat :=
  crcRound^[8] c

/-- `Hasher::update` for one byte. -/
def crc32Update (c b : Nat) : Nat :=
  crcStep (c ^^^ b)

/-- crc32fast checksum of a byte sequence. -/
def crc32 (bytes : List Nat) : Nat :=
  bytes.foldl crc32Update 0xFFFFFFFF ^^^ 0xFFFFFFFF

/-! ## Record codec (`src/data/mod.rs`) -/

/-- `LogRecordStatus`: `Normal = 1`, `Deleted = 2`. -/
inductive LogRecordStatus
  | Normal
  | Deleted
  deriving DecidableEq, Repr

/-- `LogRecordStatus as u8` (the discriminant used by `encode`). -/
def statusToU8 : LogRecordStatus → Nat
  | .Normal => 1
  | .Deleted => 2

/-- `impl From<u8> for LogRecordStatus`: the source panics on any byte
other than 1 or 2, so the conversion is partial; `none` is the panic. -/
def logRecordStatusFromU8 (b : Nat) : Option LogRecordStatus :=
  if b = 1 then some .Normal
  else if b = 2 then some .Deleted
  else none

/-- `LogRecord`: key bytes, value bytes, status. -/
structure LogRecord where
  key : List Nat
  val : List Nat
  status : LogRecordStatus
  deriving DecidableEq, Repr

/-- The bytes covered by the checksum: status byte, the two LEB128
length delimiters, key bytes, value bytes (everything after the 4 crc
bytes in `encode_ret_crc`). -/
def encBody (r : LogRecord) : List Nat :=
  statusToU8 r.status :: (lebEncode r.key.length ++ lebEncode r.val.length ++ r.key ++ r.val)

/-- `LogRecord::crc`: CRC-32 of the post-crc bytes. -/
def LogRecord.crc (r : LogRecord) : Nat :=
  crc32 (encBody r)

/-- `LogRecord::encode`: 4 little-endian crc bytes followed by the body. -/
def LogRecord.encode (r : LogRecord) : List Nat :=
  toLE4 r.crc ++ encBody r

/-- `max_log_record_header_size()` = 4 + 1 + 5 + 5. -/
def maxLogRecordHeaderSize : Nat := 15

/-- The error enum of `src/errors.rs`. -/
inductive Errors
  | ReadDataFileEOF
  | InvalidLogRecordCRC
  deriving DecidableEq, Repr

/-- Outcome of `DataFile::read`: success with the record and consumed
length, an `Errors` failure, or a process abort (Rust panic). -/
inductive ReadOutcome
  | ok (r : LogRecord) (len : Nat)
  | err (e : Errors)
  | panic
  deriving DecidableEq, Repr

/-! ## Storage backends (`src/io/`) -/

/-- Failure modes of the backend interface claims: an out-of-bounds
read (the mmap backend's `anyhow!("Out of bounds")`) and the
`Unsupported` error the spec asks for on the mmap write/sync paths. -/
inductive IoError
  | outOfBounds
  | unsupported
  deriving DecidableEq, Repr

/-- Result of a backend call: success, an explicit error, or a panic. -/
inductive IoResult (α : Type)
  | ok (a : α)
  | err (e : IoError)
  | panic
  deriving DecidableEq, Repr

/-- `FileIoManager::read` (`file.read_at(buf, offset)`): a positional
read on a regular file copies `min (buf.length) (size - offset)` bytes
into the front of the buffer, leaves the rest of the buffer unchanged
and returns the copied count; it never fails for a range past the end
of the file.  Arguments: file contents, current buffer contents, offset.
Returns the buffer after the call and the returned count. -/
def fileIoRead (contents : List Nat) (buf : List Nat) (offset : Nat) :
    IoResult (List Nat × Nat) :=
  let n := min buf.length (contents.length - offset)
  .ok ((List.range buf.length).map
        (fun i => if i < n then contents.getD (offset + i) 0 else buf.getD i 0), n)

/-- `FileIoManager::write` (`file.write(buf)` on an append-mode file):
a single `Write::write` call may consume any number `osN ≤ buf.length`
of bytes (the OS chooses); the code returns whatever count the call
reports, without retrying or checking that it equals `buf.length`.
Returns the file contents after the call and the reported count. -/
def fileIoWrite (contents : List Nat) (buf : List Nat) (osN : Nat) :
    IoResult (List Nat × Nat) :=
  let n := min osN buf.length
  .ok (contents ++ buf.take n, n)

/-- `FileIoManager::size`: the file length. -/
def fileIoSize (contents : List Nat) : Nat :=
  contents.length

/-- `MMapIOManager::read`: bounds-checked copy out of the mapping;
`mmap.get(offset..offset+buf.len())` is `Some` exactly when the whole
range is inside the mapping, otherwise the call fails. -/
def mmapRead (mmap : List Nat) (buf : List Nat) (offset : Nat) :
    IoResult (List Nat × Nat) :=
  if offset + buf.length ≤ mmap.length then
    .ok ((mmap.drop offset).take buf.length, buf.length)
  else
    .err .outOfBounds

/-- `MMapIOManager::write` is `unimplemented!()`: it panics. -/
def mmapWrite (_mmap : List Nat) (_buf : List Nat) : IoResult (List Nat × Nat) :=
  .panic

/-- `MMapIOManager::sync` is `unimplemented!()`: it panics. -/
def mmapSync (_mmap : List Nat) : IoResult Unit :=
  .panic

/-- `MMapIOManager::size`: length of the mapping. -/
def mmapSize (mmap : List Nat) : Nat :=
  mmap.length

/-! ## DataFile (`src/data/mod.rs`) -/

/-- `DataFile`: file id, write offset, and the owned backend, here the
buffered file backend whose state is the file's byte contents. -/
structure DataFile where
  file_id : Nat
  write_offset : Nat
  contents : List Nat
  deriving DecidableEq, Repr

/-- Backend read as used by `DataFile::read`: a zeroed buffer of length
`len` filled by `fileIoRead`; the count is ignored by the caller, and
the backend state is returned unchanged (a positional read does not
modify the file).  Yields the buffer and the backend state. -/
def fileIoReadZeroed (contents : List Nat) (len : Nat) (offset : Nat) :
    List Nat × List Nat :=
  (windowD (contents.drop offset) len, contents)

/-- `DataFile::read(offset)`, instrumented: returns the outcome, the
list of `(offset, length)` backend read requests issued, and the
`DataFile` state after the call.  Mirrors the source:
read 15 header bytes; parse crc (LE u32), status byte (panics when not
1 or 2), and the two length delimiters (`unwrap`, so a decode failure
panics); fail `ReadDataFileEOF` when either size is 0; otherwise read
`key_size + val_size` body bytes at `offset + actual_header_size`,
rebuild the record, and fail `InvalidLogRecordCRC` unless the stored
crc equals the record's recomputed crc. -/
def DataFile.read (df : DataFile) (offset : Nat) :
    ReadOutcome × List (Nat × Nat) × DataFile :=
  let r1 := fileIoReadZeroed df.contents maxLogRecordHeaderSize offset
  let hdr := r1.1
  let st1 := r1.2
  let storedCrc := leBytesToU32 hdr
  match logRecordStatusFromU8 (hdr.getD 4 0) with
  | none => (.panic, [(offset, maxLogRecordHeaderSize)], { df with contents := st1 })
  | some status =>
    match decodeLengthDelimiter (hdr.drop 5) with
    | none => (.panic, [(offset, maxLogRecordHeaderSize)], { df with contents := st1 })
    | some (keySize, c1) =>
      match decodeLengthDelimiter ((hdr.drop 5).drop c1) with
      | none => (.panic, [(offset, maxLogRecordHeaderSize)], { df with contents := st1 })
      | some (valSize, _c2) =>
        if keySize = 0 ∨ valSize = 0 then
          (.err .ReadDataFileEOF, [(offset, maxLogRecordHeaderSize)],
            { df with contents := st1 })
        else
          let actualHeaderSize := lengthDelimiterLen keySize + lengthDelimiterLen valSize + 1 + 4
          let r2 := fileIoReadZeroed st1 (keySize + valSize) (offset + actualHeaderSize)
          let body := r2.1
          let st2 := r2.2
          let record := LogRecord.mk (body.take keySize) (body.drop keySize) status
          if storedCrc ≠ record.crc then
            (.err .InvalidLogRecordCRC,
              [(offset, maxLogRecordHeaderSize), (offset + actualHeaderSize, keySize + valSize)],
              { df with contents := st2 })
          else
            (.ok record (actualHeaderSize + keySize + valSize),
              [(offset, maxLogRecordHeaderSize), (offset + actualHeaderSize, keySize + valSize)],
              { df with contents := st2 })

/-! ## Index (`src/indexer/btree.rs`): `BTreeMap<Vec<u8>, LogRecordPos>`
behind a reader/writer lock; the four operations are modelled on the
map itself (an association list without duplicate keys), since each
operation takes the lock for its whole duration. -/

/-- `LogRecordPos`: the index value. -/
structure LogRecordPos where
  file_id : Nat
  offset : Nat
  data_size : Nat
  deriving DecidableEq, Repr

/-- `BTreeMap::get(key).cloned()`. -/
def bmGet : List (List Nat × LogRecordPos) → List Nat → Option LogRecordPos
  | [], _ => none
  | (k, v) :: rest, key => if k = key then some v else bmGet rest key

/-- `BTreeMap::insert(key, pos)`: returns the updated map and the
previous value for the key, if any. -/
def bmInsert : List (List Nat × LogRecordPos) → List Nat → LogRecordPos →
    List (List Nat × LogRecordPos) × Option LogRecordPos
  | [], key, pos => ([(key, pos)], none)
  | (k, v) :: rest, key, pos =>
    if k = key then ((k, pos) :: rest, some v)
    else
      let r := bmInsert rest key pos
      ((k, v) :: r.1, r.2)

/-- `BTreeMap::remove(key)`: returns the updated map and the removed
value, if any. -/
def bmRemove : List (List Nat × LogRecordPos) → List Nat →
    List (List Nat × LogRecordPos) × Option LogRecordPos
  | [], _ => ([], none)
  | (k, v) :: rest, key =>
    if k = key then (rest, some v)
    else
      let r := bmRemove rest key
      ((k, v) :: r.1, r.2)

/-- `BTreeMap::len()`. -/
def bmLen (m : List (List Nat × LogRecordPos)) : Nat :=
  m.length

/-- `BTree::new()`: the empty map. -/
def btreeNew : List (List Nat × LogRecordPos) := []

/-- `Indexer::put` for `BTree`. -/
def btreePut (m : List (List Nat × LogRecordPos)) (key : List Nat) (pos : LogRecordPos) :
    List (List Nat × LogRecordPos) × Option LogRecordPos :=
  bmInsert m key pos

/-- `Indexer::get` for `BTree`. -/
def btreeGet (m : List (List Nat × LogRecordPos)) (key : List Nat) : Option LogRecordPos :=
  bmGet m key

/-- `Indexer::delete` for `BTree`. -/
def btreeDelete (m : List (List Nat × LogRecordPos)) (key : List Nat) :
    List (List Nat × LogRecordPos) × Option LogRecordPos :=
  bmRemove m key

/-- `Indexer::size` for `BTree`. -/
def btreeSize (m : List (List Nat × LogRecordPos)) : Nat :=
  bmLen m

/-! ## Arithmetic and bitwise helper lemmas -/

theorem xor_div_two (a b : Nat) : (a ^^^ b) / 2 = a / 2 ^^^ b / 2 := by
  apply Nat.eq_of_testBit_eq
  intro i
  rw [Nat.testBit_div_two, Nat.testBit_xor, Nat.testBit_xor, Nat.testBit_div_two,
    Nat.testBit_div_two]

theorem xor_mod_two (a b : Nat) : (a ^^^ b) % 2 = (a % 2) ^^^ (b % 2) := by
  have ha := Nat.testBit_zero (a ^^^ b)
  rw [Nat.testBit_xor, Nat.testBit_zero, Nat.testBit_zero] at ha
  rcases Nat.mod_two_eq_zero_or_one a with h1 | h1 <;>
    rcases Nat.mod_two_eq_zero_or_one b with h2 | h2 <;>
    rcases Nat.mod_two_eq_zero_or_one (a ^^^ b) with h3 | h3 <;>
    simp [h1, h2, h3] at ha ⊢

/-! ## CRC-32 lemmas: GF(2)-linearity of the round function, its
trivial kernel on 32-bit states, and single-bit-flip sensitivity. -/

theorem xor_cancel_pair (x y p : Nat) : (x ^^^ p) ^^^ (y ^^^ p) = x ^^^ y := by
  have h : (x ^^^ p) ^^^ (y ^^^ p) = x ^^^ (y ^^^ (p ^^^ p)) := by ac_rfl
  rw [h, Nat.xor_self, Nat.xor_zero]

theorem crcRound_xor (a b : Nat) : crcRound (a ^^^ b) = crcRound a ^^^ crcRound b := by
  unfold crcRound
  rw [xor_mod_two a b, xor_div_two a b]
  rcases Nat.mod_two_eq_zero_or_one a with h1 | h1 <;>
    rcases Nat.mod_two_eq_zero_or_one b with h2 | h2 <;>
    simp [h1, h2]
  · exact Nat.xor_assoc _ _ _
  · have h : (a / 2 ^^^ 0xEDB88320) ^^^ b / 2 = (a / 2 ^^^ b / 2) ^^^ 0xEDB88320 := by ac_rfl
    rw [h]
  · exact (xor_cancel_pair _ _ _).symm

theorem iterate_crcRound_xor (k a b : Nat) :
    crcRound^[k] (a ^^^ b) = crcRound^[k] a ^^^ crcRound^[k] b := by
  induction k generalizing a b with
  | zero => rfl
  | succ k ih =>
    rw [Function.iterate_succ_apply, Function.iterate_succ_apply, Function.iterate_succ_apply,
      crcRound_xor, ih]

theorem crcStep_xor (a b : Nat) : crcStep (a ^^^ b) = crcStep a ^^^ crcStep b :=
  iterate_crcRound_xor 8 a b

theorem crcRound_lt (c : Nat) (h : c < 2 ^ 32) : crcRound c < 2 ^ 32 := by
  unfold crcRound
  split
  · exact Nat.xor_lt_two_pow (by omega) (by norm_num)
  · omega

theorem crcRound_eq_zero (c : Nat) (h : c < 2 ^ 32) (h0 : crcRound c = 0) : c = 0 := by
  unfold crcRound at h0
  rcases Nat.mod_two_eq_zero_or_one c with hp | hp
  · simp [hp] at h0
    omega
  · simp [hp] at h0
    omega

theorem iterate_crcRound_lt (k c : Nat) (h : c < 2 ^ 32) : crcRound^[k] c < 2 ^ 32 := by
  induction k generalizing c with
  | zero => exact h
  | succ k ih => rw [Function.iterate_succ_apply]; exact ih _ (crcRound_lt c h)

theorem iterate_crcRound_eq_zero (k c : Nat) (h : c < 2 ^ 32)
    (h0 : crcRound^[k] c = 0) : c = 0 := by
  induction k generalizing c with
  | zero => exact h0
  | succ k ih =>
    rw [Function.iterate_succ_apply] at h0
    exact crcRound_eq_zero c h (ih _ (crcRound_lt c h) h0)

theorem iterate_crcStep_ne_zero (k d : Nat) (hd : d ≠ 0) (hlt : d < 2 ^ 32) :
    crcStep^[k] d ≠ 0 := by
  intro h0
  apply hd
  unfold crcStep at h0
  rw [← Function.iterate_mul] at h0
  exact iterate_crcRound_eq_zero (8 * k) d hlt h0

theorem crc32Update_xor_left (c b D : Nat) :
    crc32Update (c ^^^ D) b = crc32Update c b ^^^ crcStep D := by
  unfold crc32Update
  have h : (c ^^^ D) ^^^ b = (c ^^^ b) ^^^ D := by ac_rfl
  rw [h, crcStep_xor]

theorem crc32Update_xor_right (c b d : Nat) :
    crc32Update c (b ^^^ d) = crc32Update c b ^^^ crcStep d := by
  unfold crc32Update
  have h : c ^^^ (b ^^^ d) = (c ^^^ b) ^^^ d := by ac_rfl
  rw [h, crcStep_xor]

theorem foldl_crc32Update_xor (post : List Nat) :
    ∀ c D, post.foldl crc32Update (c ^^^ D)
      = post.foldl crc32Update c ^^^ crcStep^[post.length] D := by
  induction post with
  | nil => intro c D; rfl
  | cons b post ih =>
    intro c D
    simp only [List.foldl_cons, List.length_cons]
    rw [crc32Update_xor_left, ih, Function.iterate_succ_apply]

theorem xor_left_eq_self (y k : Nat) (h : y ^^^ k = y) : k = 0 := by
  have h2 : y ^^^ (y ^^^ k) = y ^^^ y := by rw [h]
  rw [← Nat.xor_assoc, Nat.xor_self, Nat.zero_xor] at h2
  exact h2

/-- CRC-32 detects every single-bit flip: changing one byte of a
message by xoring a nonzero 32-bit value changes the checksum. -/
theorem crc32_flip_ne (pre post : List Nat) (b d : Nat) (hd : d ≠ 0) (hlt : d < 2 ^ 32) :
    crc32 (pre ++ (b ^^^ d) :: post) ≠ crc32 (pre ++ b :: post) := by
  unfold crc32
  intro hEq
  have h1 : (pre ++ (b ^^^ d) :: post).foldl crc32Update 0xFFFFFFFF
      = (pre ++ b :: post).foldl crc32Update 0xFFFFFFFF := by
    have := congrArg (fun x => x ^^^ 0xFFFFFFFF) hEq
    simpa [Nat.xor_assoc] using this
  rw [List.foldl_append, List.foldl_append, List.foldl_cons, List.foldl_cons,
    crc32Update_xor_right, foldl_crc32Update_xor] at h1
  have h3 : crcStep^[post.length] (crcStep d) = 0 := xor_left_eq_self _ _ h1
  rw [← Function.iterate_succ_apply] at h3
  exact iterate_crcStep_ne_zero (post.length + 1) d hd hlt h3

theorem crc32Update_lt (c b : Nat) (hc : c < 2 ^ 32) (hb : b < 2 ^ 32) :
    crc32Update c b < 2 ^ 32 :=
  iterate_crcRound_lt 8 _ (Nat.xor_lt_two_pow hc hb)

theorem foldl_crc32Update_lt (bytes : List Nat) :
    ∀ c, c < 2 ^ 32 → (∀ b ∈ bytes, b < 256) → bytes.foldl crc32Update c < 2 ^ 32 := by
  induction bytes with
  | nil => intro c hc _; exact hc
  | cons b bytes ih =>
    intro c hc hb
    simp only [List.foldl_cons]
    exact ih _ (crc32Update_lt c b hc (by have := hb b (by simp); omega))
      (fun x hx => hb x (by simp [hx]))

/-- The checksum of a byte sequence fits in 32 bits. -/
theorem crc32_lt (bytes : List Nat) (hb : ∀ b ∈ bytes, b < 256) : crc32 bytes < 2 ^ 32 :=
  Nat.xor_lt_two_pow (foldl_crc32Update_lt bytes 0xFFFFFFFF (by norm_num) hb) (by norm_num)

/-! ## Window (zero-padded buffer) lemmas -/

theorem windowD_zero (xs : List Nat) : windowD xs 0 = [] := rfl

theorem windowD_length (xs : List Nat) (n : Nat) : (windowD xs n).length = n := by
  simp [windowD]

theorem windowD_cons (a : Nat) (xs : List Nat) (n : Nat) :
    windowD (a :: xs) (n + 1) = a :: windowD xs n := by
  unfold windowD
  rw [List.range_succ_eq_map, List.map_cons, List.map_map]
  rfl

theorem windowD_append (a : List Nat) :
    ∀ (xs : List Nat) (n : Nat), a.length ≤ n →
      windowD (a ++ xs) n = a ++ windowD xs (n - a.length) := by
  induction a with
  | nil => intro xs n _; simp
  | cons h t ih =>
    intro xs n hlen
    match n, hlen with
    | m + 1, hlen =>
      rw [List.cons_append, windowD_cons, ih xs m (by simpa using hlen)]
      simp [Nat.succ_sub_succ]

theorem windowD_getD (xs : List Nat) (n i : Nat) (h : i < n) :
    (windowD xs n).getD i 0 = xs.getD i 0 := by
  rw [List.getD_eq_getElem _ _ (by simpa [windowD_length] using h)]
  simp [windowD]

theorem getD_drop (xs : List Nat) (n i d : Nat) : (xs.drop n).getD i d = xs.getD (n + i) d := by
  rw [List.getD_eq_getD_get?, List.getD_eq_getD_get?]
  simp [List.getElem?_drop]

/-! ## LEB128 lemmas -/

theorem lebEncode_of_lt (n : Nat) (h : n < 128) : lebEncode n = [n] := by
  unfold lebEncode
  cases hn : n with
  | zero => simp [lebEncodeAux]
  | succ m => simp [lebEncodeAux, hn ▸ h]

theorem lebEncode_of_ge (n : Nat) (h : ¬n < 128) :
    lebEncode n = (n % 128 + 128) :: lebEncode (n / 128) := by
  unfold lebEncode
  cases hn : n with
  | zero => omega
  | succ m =>
    simp only [lebEncodeAux, hn ▸ h, if_false]
    rw [lebEncodeAux_irrel m ((m + 1) / 128) ((m + 1) / 128)
      (by have := Nat.div_lt_self (show 0 < m + 1 by omega) (show 1 < 128 by omega); omega)
      (Nat.le_refl _)]

theorem lengthDelimiterLen_of_lt (n : Nat) (h : n < 128) : lengthDelimiterLen n = 1 := by
  simp [lengthDelimiterLen, lebEncode_of_lt n h]

theorem lengthDelimiterLen_of_ge (n : Nat) (h : ¬n < 128) :
    lengthDelimiterLen n = 1 + lengthDelimiterLen (n / 128) := by
  simp [lengthDelimiterLen, lebEncode_of_ge n h, Nat.add_comm]

theorem lengthDelimiterLen_pos (n : Nat) : 1 ≤ lengthDelimiterLen n := by
  by_cases h : n < 128
  · simp [lengthDelimiterLen_of_lt n h]
  · simp [lengthDelimiterLen_of_ge n h]

theorem lebEncode_bytes_lt (n : Nat) : ∀ b ∈ lebEncode n, b < 256 := by
  induction n using Nat.strong_induction_on with
  | _ n ih =>
    by_cases h : n < 128
    · rw [lebEncode_of_lt n h]
      intro b hb
      simp at hb
      omega
    · rw [lebEncode_of_ge n h]
      intro b hb
      rcases List.mem_cons.mp hb with h1 | h1
      · omega
      · exact ih (n / 128) (Nat.div_lt_self (by omega) (by omega)) b h1

theorem lengthDelimiterLen_le (k : Nat) :
    ∀ n, n < 128 ^ (k + 1) → lengthDelimiterLen n ≤ k + 1 := by
  induction k with
  | zero =>
    intro n hn
    rw [lengthDelimiterLen_of_lt n (by simpa using hn)]
  | succ k ih =>
    intro n hn
    by_cases h : n < 128
    · rw [lengthDelimiterLen_of_lt n h]; omega
    · rw [lengthDelimiterLen_of_ge n h]
      have hd : n / 128 < 128 ^ (k + 1) := by
        apply Nat.div_lt_of_lt_mul
        calc n < 128 ^ (k + 1 + 1) := hn
          _ = 128 * 128 ^ (k + 1) := by ring
      have := ih (n / 128) hd
      omega

theorem lengthDelimiterLen_le_five (n : Nat) (h : n < 2 ^ 32) : lengthDelimiterLen n ≤ 5 := by
  exact lengthDelimiterLen_le 4 n (by norm_num at h ⊢; omega)

theorem lebDecodeGo_encode (n : Nat) :
    ∀ (count acc : Nat) (rest : List Nat), count + lengthDelimiterLen n ≤ 10 →
      lebDecodeGo (lebEncode n ++ rest) count acc
        = some (acc + n * 128 ^ count, count + lengthDelimiterLen n) := by
  induction n using Nat.strong_induction_on with
  | _ n ih =>
    intro count acc rest hcount
    by_cases h : n < 128
    · rw [lebEncode_of_lt n h, lengthDelimiterLen_of_lt n h] at *
      simp only [List.cons_append, List.nil_append, lebDecodeGo]
      rw [if_neg (by omega), if_pos h]
    · rw [lebEncode_of_ge n h, lengthDelimiterLen_of_ge n h] at *
      have hpos := lengthDelimiterLen_pos (n / 128)
      simp only [List.cons_append, lebDecodeGo, List.append_eq]
      rw [if_neg (by omega), if_neg (by omega)]
      rw [ih (n / 128) (Nat.div_lt_self (by omega) (by omega)) (count + 1) _ rest (by omega)]
      congr 2
      · have hmod : (n % 128 + 128) % 128 = n % 128 := by omega
        rw [hmod, pow_succ]
        have hsplit : n = n % 128 + 128 * (n / 128) := by omega
        conv_rhs => rw [hsplit]
        ring
      · omega

theorem decodeLengthDelimiter_encode (n : Nat) (rest : List Nat)
    (h : lengthDelimiterLen n ≤ 10) :
    decodeLengthDelimiter (lebEncode n ++ rest) = some (n, lengthDelimiterLen n) := by
  have := lebDecodeGo_encode n 0 0 rest (by omega)
  simpa [decodeLengthDelimiter] using this

/-! ## Little-endian u32 lemmas -/

theorem leBytesToU32_cons (b0 b1 b2 b3 : Nat) (rest : List Nat) :
    leBytesToU32 (b0 :: b1 :: b2 :: b3 :: rest) = b0 + 256 * b1 + 65536 * b2 + 16777216 * b3 :=
  rfl

theorem toLE4_eq (n : Nat) :
    toLE4 n = [n % 256, n / 256 % 256, n / 65536 % 256, n / 16777216 % 256] := rfl

theorem leBytesToU32_toLE4 (n : Nat) (h : n < 2 ^ 32) (rest : List Nat) :
    leBytesToU32 (toLE4 n ++ rest) = n := by
  rw [toLE4_eq, List.cons_append, List.cons_append, List.cons_append, List.cons_append,
    List.nil_append, leBytesToU32_cons]
  omega

theorem toLE4_bytes_lt (n : Nat) : ∀ b ∈ toLE4 n, b < 256 := by
  intro b hb
  simp [toLE4_eq] at hb
  rcases hb with h | h | h | h <;> omega

/-! ## Characterisation of `DataFile::read` on a structurally well-formed
record region: four crc bytes, a recognised status byte, two minimal
length delimiters with nonzero values, and a body of matching length.
The outcome is decided entirely by the crc comparison. -/

theorem DataFile.read_decomposed (df : DataFile) (offset : Nat)
    (b0 b1 b2 b3 sB ks vs : Nat) (st : LogRecordStatus) (key val suffix : List Nat)
    (hdrop : df.contents.drop offset
      = b0 :: b1 :: b2 :: b3 :: sB :: (lebEncode ks ++ (lebEncode vs ++ (key ++ (val ++ suffix)))))
    (hkey : key.length = ks) (hval : val.length = vs)
    (hks : ks ≠ 0) (hvs : vs ≠ 0)
    (hlen : lengthDelimiterLen ks + lengthDelimiterLen vs ≤ 10)
    (hsB : logRecordStatusFromU8 sB = some st) :
    DataFile.read df offset =
      (if b0 + 256 * b1 + 65536 * b2 + 16777216 * b3 ≠ (LogRecord.mk key val st).crc
       then .err .InvalidLogRecordCRC
       else .ok (LogRecord.mk key val st)
              (lengthDelimiterLen ks + lengthDelimiterLen vs + 1 + 4 + ks + vs),
       [(offset, 15),
        (offset + (lengthDelimiterLen ks + lengthDelimiterLen vs + 1 + 4), ks + vs)],
       df) := by
  have hL1 : 1 ≤ lengthDelimiterLen ks := lengthDelimiterLen_pos ks
  have hL2 : 1 ≤ lengthDelimiterLen vs := lengthDelimiterLen_pos vs
  have hEq1 : (lebEncode ks).length = lengthDelimiterLen ks := rfl
  have hEq2 : (lebEncode vs).length = lengthDelimiterLen vs := rfl
  have hwin : windowD (df.contents.drop offset) 15
      = b0 :: b1 :: b2 :: b3 :: sB ::
          (lebEncode ks ++
            windowD (lebEncode vs ++ (key ++ (val ++ suffix))) (10 - lengthDelimiterLen ks)) := by
    rw [hdrop, windowD_cons, windowD_cons, windowD_cons, windowD_cons, windowD_cons,
      windowD_append (lebEncode ks) _ 10 (by rw [hEq1]; omega)]
    rfl
  have hwin2 : windowD (lebEncode vs ++ (key ++ (val ++ suffix))) (10 - lengthDelimiterLen ks)
      = lebEncode vs ++ windowD (key ++ (val ++ suffix))
          (10 - lengthDelimiterLen ks - lengthDelimiterLen vs) := by
    rw [windowD_append (lebEncode vs) _ _ (by rw [hEq2]; omega)]
    rfl
  have hv1 : decodeLengthDelimiter
      (lebEncode ks ++
        windowD (lebEncode vs ++ (key ++ (val ++ suffix))) (10 - lengthDelimiterLen ks))
      = some (ks, lengthDelimiterLen ks) :=
    decodeLengthDelimiter_encode ks _ (by omega)
  have hv2 : decodeLengthDelimiter
      (windowD (lebEncode vs ++ (key ++ (val ++ suffix))) (10 - lengthDelimiterLen ks))
      = some (vs, lengthDelimiterLen vs) := by
    rw [hwin2]
    exact decodeLengthDelimiter_encode vs _ (by omega)
  have hbody : df.contents.drop
        (offset + (lengthDelimiterLen ks + lengthDelimiterLen vs + 1 + 4))
      = key ++ (val ++ suffix) := by
    rw [← List.drop_drop, hdrop]
    have hshape : b0 :: b1 :: b2 :: b3 :: sB ::
          (lebEncode ks ++ (lebEncode vs ++ (key ++ (val ++ suffix))))
        = (b0 :: b1 :: b2 :: b3 :: sB :: (lebEncode ks ++ lebEncode vs))
            ++ (key ++ (val ++ suffix)) := by
      simp
    rw [hshape]
    have hClen : (b0 :: b1 :: b2 :: b3 :: sB :: (lebEncode ks ++ lebEncode vs)).length
        = lengthDelimiterLen ks + lengthDelimiterLen vs + 1 + 4 := by
      simp [lengthDelimiterLen]
    rw [← hClen, List.drop_left]
  have hbodywin : windowD (key ++ (val ++ suffix)) (ks + vs) = key ++ val := by
    rw [windowD_append key _ _ (by rw [hkey]; omega), hkey,
      windowD_append val _ _ (by rw [hval]; omega), hval]
    have h0 : ks + vs - ks - vs = 0 := by omega
    rw [h0, windowD_zero]
    simp
  have htake : (key ++ val).take ks = key := by
    rw [← hkey, List.take_left]
  have hdrop2 : (key ++ val).drop ks = val := by
    rw [← hkey, List.drop_left]
  have hgetD : (b0 :: b1 :: b2 :: b3 :: sB ::
      (lebEncode ks ++
        windowD (lebEncode vs ++ (key ++ (val ++ suffix)))
          (10 - lengthDelimiterLen ks))).getD 4 0 = sB := by
    simp [List.getD]
  have hdrop5 : (b0 :: b1 :: b2 :: b3 :: sB ::
      (lebEncode ks ++
        windowD (lebEncode vs ++ (key ++ (val ++ suffix)))
          (10 - lengthDelimiterLen ks))).drop 5
      = lebEncode ks ++
          windowD (lebEncode vs ++ (key ++ (val ++ suffix))) (10 - lengthDelimiterLen ks) := by
    simp
  have hdropL1 : (lebEncode ks ++
      windowD (lebEncode vs ++ (key ++ (val ++ suffix)))
        (10 - lengthDelimiterLen ks)).drop (lengthDelimiterLen ks)
      = windowD (lebEncode vs ++ (key ++ (val ++ suffix))) (10 - lengthDelimiterLen ks) := by
    rw [← hEq1, List.drop_left]
  have hno : ¬(ks = 0 ∨ vs = 0) := by omega
  unfold DataFile.read fileIoReadZeroed
  simp only [maxLogRecordHeaderSize, hwin, hgetD, hsB, hdrop5, hv1, hdropL1, hv2, hno,
    if_false, hbody, hbodywin, htake, hdrop2, leBytesToU32_cons]
  split <;> rfl

/-! ## Record-level helper lemmas -/

theorem getD_append_add (xs ys : List Nat) (j d : Nat) :
    (xs ++ ys).getD (xs.length + j) d = ys.getD j d := by
  simp [List.getD_eq_getD_get?, List.getElem?_append_right]

theorem set_append_add (xs ys : List Nat) (j : Nat) (v : Nat) :
    (xs ++ ys).set (xs.length + j) v = xs ++ ys.set j v := by
  rw [List.set_append_right _ _ (by omega)]
  congr 1
  congr 1
  omega

theorem statusFromU8_toU8 (st : LogRecordStatus) :
    logRecordStatusFromU8 (statusToU8 st) = some st := by
  cases st <;> rfl

theorem statusToU8_lt (st : LogRecordStatus) : statusToU8 st < 256 := by
  cases st <;> simp [statusToU8]

theorem encBody_bytes_lt (r : LogRecord) (hkb : ∀ b ∈ r.key, b < 256)
    (hvb : ∀ b ∈ r.val, b < 256) : ∀ b ∈ encBody r, b < 256 := by
  intro b hb
  simp only [encBody, List.mem_cons, List.mem_append] at hb
  rcases hb with h | ((h | h) | h) | h
  · rw [h]; exact statusToU8_lt r.status
  · exact lebEncode_bytes_lt _ b h
  · exact lebEncode_bytes_lt _ b h
  · exact hkb b h
  · exact hvb b h

theorem crc_lt (r : LogRecord) (hkb : ∀ b ∈ r.key, b < 256)
    (hvb : ∀ b ∈ r.val, b < 256) : r.crc < 2 ^ 32 :=
  crc32_lt (encBody r) (encBody_bytes_lt r hkb hvb)

/-- `LogRecord::encode` followed by any suffix, in the cons/append shape
consumed by `DataFile.read_decomposed`. -/
theorem encode_append_shape (r : LogRecord) (suffix : List Nat) :
    r.encode ++ suffix
      = r.crc % 256 :: r.crc / 256 % 256 :: r.crc / 65536 % 256 :: r.crc / 16777216 % 256 ::
          statusToU8 r.status ::
          (lebEncode r.key.length ++
            (lebEncode r.val.length ++ (r.key ++ (r.val ++ suffix)))) := by
  simp [LogRecord.encode, encBody, toLE4]

theorem encode_length (r : LogRecord) :
    r.encode.length = lengthDelimiterLen r.key.length + lengthDelimiterLen r.val.length
      + 1 + 4 + r.key.length + r.val.length := by
  simp [LogRecord.encode, encBody, toLE4, lengthDelimiterLen]
  ring

/-- `DataFile::read` panics (via `From<u8> for LogRecordStatus`) whenever
the byte at header position 4 is not a recognised status value. -/
theorem read_status_panic (df : DataFile) (offset : Nat)
    (h : logRecordStatusFromU8 ((windowD (df.contents.drop offset) 15).getD 4 0) = none) :
    DataFile.read df offset = (.panic, [(offset, 15)], df) := by
  unfold DataFile.read fileIoReadZeroed
  simp only [maxLogRecordHeaderSize, h]

/-! ## Claim C1 -/

/-- Claim C1: encoding a record with non-empty key and value and
status Normal or Deleted, then decoding with `DataFile::read` at the
offset where the encoded bytes sit, succeeds and returns the record
together with a consumed length equal to the encoded length (byte
bounds and 32-bit length bounds reflect `Vec<u8>` elements and the
u32-sized record lengths of the data model). -/
theorem c1_encode_decode_roundtrip (r : LogRecord) (pre suffix : List Nat) (df : DataFile)
    (hk : r.key ≠ []) (hv : r.val ≠ [])
    (hk32 : r.key.length < 2 ^ 32) (hv32 : r.val.length < 2 ^ 32)
    (hkb : ∀ b ∈ r.key, b < 256) (hvb : ∀ b ∈ r.val, b < 256)
    (hc : df.contents = pre ++ (r.encode ++ suffix)) :
    (DataFile.read df pre.length).1 = .ok r r.encode.length := by
  have hdrop : df.contents.drop pre.length
      = r.crc % 256 :: r.crc / 256 % 256 :: r.crc / 65536 % 256 :: r.crc / 16777216 % 256 ::
          statusToU8 r.status ::
          (lebEncode r.key.length ++
            (lebEncode r.val.length ++ (r.key ++ (r.val ++ suffix)))) := by
    rw [hc, List.drop_left]
    exact encode_append_shape r suffix
  have hmaster := DataFile.read_decomposed df pre.length
    (r.crc % 256) (r.crc / 256 % 256) (r.crc / 65536 % 256) (r.crc / 16777216 % 256)
    (statusToU8 r.status) r.key.length r.val.length r.status r.key r.val suffix
    hdrop rfl rfl (by simpa using hk) (by simpa using hv)
    (by
      have h1 := lengthDelimiterLen_le_five r.key.length hk32
      have h2 := lengthDelimiterLen_le_five r.val.length hv32
      omega)
    (statusFromU8_toU8 r.status)
  have hlt : r.crc < 2 ^ 32 := crc_lt r hkb hvb
  have hsum : r.crc % 256 + 256 * (r.crc / 256 % 256) + 65536 * (r.crc / 65536 % 256)
      + 16777216 * (r.crc / 16777216 % 256) = r.crc := by omega
  rw [hmaster, hsum]
  have hrec : LogRecord.mk r.key r.val r.status = r := rfl
  rw [hrec, if_neg (by simp), encode_length r]

/-- Witness for C1 at the record `{key: [107], val: [118], status: Normal}`
written at offset 1 of a data file with a trailing byte. -/
theorem c1_witness :
    (DataFile.read
      ⟨7, 0, [9] ++ (LogRecord.encode ⟨[107], [118], .Normal⟩ ++ [5])⟩ 1).1
      = .ok ⟨[107], [118], .Normal⟩ (LogRecord.encode ⟨[107], [118], .Normal⟩).length := by
  have h := c1_encode_decode_roundtrip ⟨[107], [118], .Normal⟩ [9] [5]
    ⟨7, 0, [9] ++ (LogRecord.encode ⟨[107], [118], .Normal⟩ ++ [5])⟩
    (by decide) (by decide) (by decide) (by decide) (by decide) (by decide) rfl
  simpa using h

/-! ## Claim C2 -/

/-- Claim C2: whenever the header parse succeeds with nonzero
`key_size` and `val_size` (so the body bytes are read), the read fails
with `InvalidLogRecordCRC` exactly when the stored crc differs from
the CRC-32 recomputed over status byte, the two length delimiters, and
the key and value bytes actually read. -/
theorem c2_crc_mismatch_iff (df : DataFile) (offset : Nat) (st : LogRecordStatus)
    (ks c1 vs c2 : Nat)
    (hst : logRecordStatusFromU8 ((windowD (df.contents.drop offset) 15).getD 4 0) = some st)
    (hv1 : decodeLengthDelimiter ((windowD (df.contents.drop offset) 15).drop 5)
      = some (ks, c1))
    (hv2 : decodeLengthDelimiter (((windowD (df.contents.drop offset) 15).drop 5).drop c1)
      = some (vs, c2))
    (hks : ks ≠ 0) (hvs : vs ≠ 0) :
    ((DataFile.read df offset).1 = .err .InvalidLogRecordCRC
      ↔ leBytesToU32 (windowD (df.contents.drop offset) 15)
          ≠ crc32 (statusToU8 st ::
              (lebEncode ks ++ lebEncode vs ++
                (windowD (df.contents.drop
                    (offset + (lengthDelimiterLen ks + lengthDelimiterLen vs + 1 + 4)))
                  (ks + vs)).take ks ++
                (windowD (df.contents.drop
                    (offset + (lengthDelimiterLen ks + lengthDelimiterLen vs + 1 + 4)))
                  (ks + vs)).drop ks))) := by
  have hklen : ((windowD (df.contents.drop
      (offset + (lengthDelimiterLen ks + lengthDelimiterLen vs + 1 + 4)))
        (ks + vs)).take ks).length = ks := by
    rw [List.length_take, windowD_length]
    omega
  have hvlen : ((windowD (df.contents.drop
      (offset + (lengthDelimiterLen ks + lengthDelimiterLen vs + 1 + 4)))
        (ks + vs)).drop ks).length = vs := by
    rw [List.length_drop, windowD_length]
    omega
  have hno : ¬(ks = 0 ∨ vs = 0) := by omega
  unfold DataFile.read fileIoReadZeroed
  simp only [maxLogRecordHeaderSize, hst, hv1, hv2, hno, if_false]
  rw [show (LogRecord.mk ((windowD (df.contents.drop
        (offset + (lengthDelimiterLen ks + lengthDelimiterLen vs + 1 + 4)))
          (ks + vs)).take ks)
      ((windowD (df.contents.drop
        (offset + (lengthDelimiterLen ks + lengthDelimiterLen vs + 1 + 4)))
          (ks + vs)).drop ks) st).crc
      = crc32 (statusToU8 st ::
          (lebEncode ks ++ lebEncode vs ++
            (windowD (df.contents.drop
                (offset + (lengthDelimiterLen ks + lengthDelimiterLen vs + 1 + 4)))
              (ks + vs)).take ks ++
            (windowD (df.contents.drop
                (offset + (lengthDelimiterLen ks + lengthDelimiterLen vs + 1 + 4)))
              (ks + vs)).drop ks))
    from by simp [LogRecord.crc, encBody, hklen, hvlen]]
  split_ifs with hC
  · exact ⟨fun _ => hC, fun _ => rfl⟩
  · constructor
    · intro h
      simp at h
    · intro h
      exact absurd h hC

set_option maxRecDepth 4000 in
/-- Witness for C2: a record region whose crc byte was overwritten
fails with `InvalidLogRecordCRC`. -/
theorem c2_witness :
    (DataFile.read ⟨0, 0, [1, 2, 3, 4, 1, 1, 1, 107, 118]⟩ 0).1
      = .err .InvalidLogRecordCRC := by
  have h := c2_crc_mismatch_iff ⟨0, 0, [1, 2, 3, 4, 1, 1, 1, 107, 118]⟩ 0 .Normal
    1 1 1 1 (by decide) (by decide) (by decide) (by decide) (by decide)
  exact h.mpr (by decide)

/-! ## Claim C3 -/

/-- Claim C3: a successfully parsed header whose `key_size` or
`val_size` is zero makes the read fail with `ReadDataFileEOF`
immediately: the result is independent of any body content, exactly
one backend read (the 15-byte header read) is issued, and the file
state is unchanged. -/
theorem c3_zero_size_eof (df : DataFile) (offset : Nat) (st : LogRecordStatus)
    (ks c1 vs c2 : Nat)
    (hst : logRecordStatusFromU8 ((windowD (df.contents.drop offset) 15).getD 4 0) = some st)
    (hv1 : decodeLengthDelimiter ((windowD (df.contents.drop offset) 15).drop 5)
      = some (ks, c1))
    (hv2 : decodeLengthDelimiter (((windowD (df.contents.drop offset) 15).drop 5).drop c1)
      = some (vs, c2))
    (hzero : ks = 0 ∨ vs = 0) :
    DataFile.read df offset = (.err .ReadDataFileEOF, [(offset, 15)], df) := by
  unfold DataFile.read fileIoReadZeroed
  simp only [maxLogRecordHeaderSize, hst, hv1, hv2]
  rw [if_pos hzero]

/-- Witness for C3: a header declaring `key_size = 0` yields
`ReadDataFileEOF` with a single header read. -/
theorem c3_witness :
    DataFile.read ⟨0, 0, [9, 9, 9, 9, 1, 0, 5, 77]⟩ 0
      = (.err .ReadDataFileEOF, [(0, 15)], ⟨0, 0, [9, 9, 9, 9, 1, 0, 5, 77]⟩) :=
  c3_zero_size_eof ⟨0, 0, [9, 9, 9, 9, 1, 0, 5, 77]⟩ 0 .Normal 0 1 5 1
    (by decide) (by decide) (by decide) (Or.inl rfl)

/-! ## Claim C4 -/

/-- Counterexample to claim C4 as stated: on a record region whose
status byte is 3, `DataFile::read` panics (the `From<u8>` conversion
aborts the process); it does not return any error to the caller. -/
theorem c4_counterexample :
    (DataFile.read ⟨0, 0, [0, 0, 0, 0, 3, 1, 1, 97, 98]⟩ 0).1 = .panic
      ∧ (DataFile.read ⟨0, 0, [0, 0, 0, 0, 3, 1, 1, 97, 98]⟩ 0).1 ≠ .err .ReadDataFileEOF
      ∧ (DataFile.read ⟨0, 0, [0, 0, 0, 0, 3, 1, 1, 97, 98]⟩ 0).1 ≠ .err .InvalidLogRecordCRC := by
  exact ⟨by decide, by decide, by decide⟩

/-- Claim C4 as amended: decoding bytes whose status byte is neither 1
nor 2 makes `DataFile::read` panic (process abort via
`panic!("Unknown log record status")`), rather than surfacing an error
value; the file state is unchanged and only the header read occurred. -/
theorem c4_unknown_status_panics (df : DataFile) (offset : Nat)
    (h1 : (windowD (df.contents.drop offset) 15).getD 4 0 ≠ 1)
    (h2 : (windowD (df.contents.drop offset) 15).getD 4 0 ≠ 2) :
    DataFile.read df offset = (.panic, [(offset, 15)], df) :=
  read_status_panic df offset (by unfold logRecordStatusFromU8; rw [if_neg h1, if_neg h2])

/-- Witness for the amended C4 at the concrete status byte 3. -/
theorem c4_witness :
    DataFile.read ⟨0, 0, [0, 0, 0, 0, 3]⟩ 0 = (.panic, [(0, 15)], ⟨0, 0, [0, 0, 0, 0, 3]⟩) :=
  c4_unknown_status_panics ⟨0, 0, [0, 0, 0, 0, 3]⟩ 0 (by decide) (by decide)

/-! ## Claim C5: single-bit-flip helpers -/

/-- Flip bit `t` of the byte at index `i` of a byte sequence. -/
def flipBit (bs : List Nat) (i t : Nat) : List Nat :=
  bs.set i (bs.getD i 0 ^^^ 2 ^ t)

theorem xor_pow_ne (a t : Nat) : a ^^^ 2 ^ t ≠ a := by
  intro h
  have h2 := xor_left_eq_self a (2 ^ t) h
  have h3 : 0 < 2 ^ t := Nat.pos_pow_of_pos t (by omega)
  omega

theorem xor_pow_lt (a t : Nat) (ha : a < 256) (ht : t < 8) : a ^^^ 2 ^ t < 256 := by
  have h1 : 2 ^ t < 2 ^ 8 := Nat.pow_lt_pow_right (by omega) ht
  exact Nat.xor_lt_two_pow (n := 8) ha h1

theorem pow_lt_two_pow_32 (t : Nat) (ht : t < 8) : 2 ^ t < 2 ^ 32 :=
  Nat.pow_lt_pow_right (by omega) (by omega)

/-- Changing one key byte changes the CRC-32 of the record body. -/
theorem crc_encBody_set_key_ne (sB : Nat) (A key val : List Nat) (j d : Nat)
    (hj : j < key.length) (hd : d ≠ 0) (hlt : d < 2 ^ 32) :
    crc32 (sB :: (A ++ key.set j (key.getD j 0 ^^^ d) ++ val))
      ≠ crc32 (sB :: (A ++ key ++ val)) := by
  have hget : key.getD j 0 = key[j] := List.getD_eq_getElem key 0 hj
  have hkeyeq : key = key.take j ++ key[j] :: key.drop (j + 1) := by
    conv_lhs => rw [← List.take_append_drop j key]
    rw [List.drop_eq_getElem_cons hj]
  have hset : key.set j (key.getD j 0 ^^^ d)
      = key.take j ++ (key[j] ^^^ d) :: key.drop (j + 1) := by
    rw [hget, List.set_eq_take_cons_drop _ hj]
  rw [hset]
  conv_rhs => rw [hkeyeq]
  have e1 : sB :: (A ++ (key.take j ++ (key[j] ^^^ d) :: key.drop (j + 1)) ++ val)
      = (sB :: (A ++ key.take j)) ++ (key[j] ^^^ d) :: (key.drop (j + 1) ++ val) := by
    simp only [List.cons_append, List.append_assoc]
  have e2 : sB :: (A ++ (key.take j ++ key[j] :: key.drop (j + 1)) ++ val)
      = (sB :: (A ++ key.take j)) ++ key[j] :: (key.drop (j + 1) ++ val) := by
    simp only [List.cons_append, List.append_assoc]
  rw [e1, e2]
  exact crc32_flip_ne _ _ _ d hd hlt

/-- Changing one value byte changes the CRC-32 of the record body. -/
theorem crc_encBody_set_val_ne (sB : Nat) (A key val : List Nat) (j d : Nat)
    (hj : j < val.length) (hd : d ≠ 0) (hlt : d < 2 ^ 32) :
    crc32 (sB :: (A ++ key ++ val.set j (val.getD j 0 ^^^ d)))
      ≠ crc32 (sB :: (A ++ key ++ val)) := by
  have hget : val.getD j 0 = val[j] := List.getD_eq_getElem val 0 hj
  have hvaleq : val = val.take j ++ val[j] :: val.drop (j + 1) := by
    conv_lhs => rw [← List.take_append_drop j val]
    rw [List.drop_eq_getElem_cons hj]
  have hset : val.set j (val.getD j 0 ^^^ d)
      = val.take j ++ (val[j] ^^^ d) :: val.drop (j + 1) := by
    rw [hget, List.set_eq_take_cons_drop _ hj]
  rw [hset]
  conv_rhs => rw [hvaleq]
  have e1 : sB :: (A ++ key ++ (val.take j ++ (val[j] ^^^ d) :: val.drop (j + 1)))
      = (sB :: (A ++ key ++ val.take j)) ++ (val[j] ^^^ d) :: val.drop (j + 1) := by
    simp only [List.cons_append, List.append_assoc]
  have e2 : sB :: (A ++ key ++ (val.take j ++ val[j] :: val.drop (j + 1)))
      = (sB :: (A ++ key ++ val.take j)) ++ val[j] :: val.drop (j + 1) := by
    simp only [List.cons_append, List.append_assoc]
  rw [e1, e2]
  exact crc32_flip_ne _ _ _ d hd hlt

/-- A single-bit flip of the status byte (index 4) of an encoded
record makes the decode panic. -/
theorem read_flip_status_panic (r : LogRecord) (fid wo t : Nat) (ht : t < 8) :
    DataFile.read ⟨fid, wo, flipBit r.encode 4 t⟩ 0
      = (.panic, [(0, 15)], ⟨fid, wo, flipBit r.encode 4 t⟩) := by
  have hflip : flipBit r.encode 4 t
      = toLE4 r.crc ++ (statusToU8 r.status ^^^ 2 ^ t) ::
          (lebEncode r.key.length ++ lebEncode r.val.length ++ r.key ++ r.val) := by
    unfold flipBit
    have h4 : (4 : Nat) = (toLE4 r.crc).length + 0 := by simp [toLE4]
    conv_lhs => rw [show r.encode = toLE4 r.crc ++ encBody r from rfl, h4,
      set_append_add, getD_append_add]
    rfl
  apply read_status_panic
  have hgd : (flipBit r.encode 4 t).getD 4 0 = statusToU8 r.status ^^^ 2 ^ t := by
    rw [hflip]
    have h4 : (4 : Nat) = (toLE4 r.crc).length + 0 := by simp [toLE4]
    rw [h4, getD_append_add]
    rfl
  rw [List.drop_zero, windowD_getD _ _ _ (by omega), hgd]
  have hS : ∀ t', t' < 8 → logRecordStatusFromU8 (1 ^^^ 2 ^ t') = none
      ∧ logRecordStatusFromU8 (2 ^^^ 2 ^ t') = none := by decide
  cases hst : r.status
  · exact (hS t ht).1
  · exact (hS t ht).2

/-- A single-bit flip in one of the four stored crc bytes of an
encoded record makes the decode fail with `InvalidLogRecordCRC`. -/
theorem read_flip_crcByte_err (r : LogRecord) (fid wo t j : Nat) (ht : t < 8) (hj : j < 4)
    (hk : r.key ≠ []) (hv : r.val ≠ [])
    (hk32 : r.key.length < 2 ^ 32) (hv32 : r.val.length < 2 ^ 32)
    (hkb : ∀ b ∈ r.key, b < 256) (hvb : ∀ b ∈ r.val, b < 256) :
    (DataFile.read ⟨fid, wo, flipBit r.encode j t⟩ 0).1 = .err .InvalidLogRecordCRC := by
  have hclt : r.crc < 2 ^ 32 := crc_lt r hkb hvb
  have hlen : lengthDelimiterLen r.key.length + lengthDelimiterLen r.val.length ≤ 10 := by
    have h1 := lengthDelimiterLen_le_five r.key.length hk32
    have h2 := lengthDelimiterLen_le_five r.val.length hv32
    omega
  have hEnc := encode_append_shape r []
  rw [List.append_nil] at hEnc
  have hrec : LogRecord.mk r.key r.val r.status = r := rfl
  interval_cases j
  · have hm := DataFile.read_decomposed ⟨fid, wo, flipBit r.encode 0 t⟩ 0
      (r.crc % 256 ^^^ 2 ^ t) (r.crc / 256 % 256) (r.crc / 65536 % 256) (r.crc / 16777216 % 256)
      (statusToU8 r.status) r.key.length r.val.length r.status r.key r.val []
      (by rw [List.drop_zero]
          show flipBit r.encode 0 t = _
          unfold flipBit
          rw [hEnc]
          simp) rfl rfl
      (by simpa using hk) (by simpa using hv) hlen (statusFromU8_toU8 r.status)
    rw [hm, if_pos ?_]
    · rw [hrec]
      have hx := xor_pow_ne (r.crc % 256) t
      have hxlt := xor_pow_lt (r.crc % 256) t (by omega) ht
      omega
  · have hm := DataFile.read_decomposed ⟨fid, wo, flipBit r.encode 1 t⟩ 0
      (r.crc % 256) (r.crc / 256 % 256 ^^^ 2 ^ t) (r.crc / 65536 % 256) (r.crc / 16777216 % 256)
      (statusToU8 r.status) r.key.length r.val.length r.status r.key r.val []
      (by rw [List.drop_zero]
          show flipBit r.encode 1 t = _
          unfold flipBit
          rw [hEnc]
          simp) rfl rfl
      (by simpa using hk) (by simpa using hv) hlen (statusFromU8_toU8 r.status)
    rw [hm, if_pos ?_]
    · rw [hrec]
      have hx := xor_pow_ne (r.crc / 256 % 256) t
      have hxlt := xor_pow_lt (r.crc / 256 % 256) t (by omega) ht
      omega
  · have hm := DataFile.read_decomposed ⟨fid, wo, flipBit r.encode 2 t⟩ 0
      (r.crc % 256) (r.crc / 256 % 256) (r.crc / 65536 % 256 ^^^ 2 ^ t) (r.crc / 16777216 % 256)
      (statusToU8 r.status) r.key.length r.val.length r.status r.key r.val []
      (by rw [List.drop_zero]
          show flipBit r.encode 2 t = _
          unfold flipBit
          rw [hEnc]
          simp) rfl rfl
      (by simpa using hk) (by simpa using hv) hlen (statusFromU8_toU8 r.status)
    rw [hm, if_pos ?_]
    · rw [hrec]
      have hx := xor_pow_ne (r.crc / 65536 % 256) t
      have hxlt := xor_pow_lt (r.crc / 65536 % 256) t (by omega) ht
      omega
  · have hm := DataFile.read_decomposed ⟨fid, wo, flipBit r.encode 3 t⟩ 0
      (r.crc % 256) (r.crc / 256 % 256) (r.crc / 65536 % 256) (r.crc / 16777216 % 256 ^^^ 2 ^ t)
      (statusToU8 r.status) r.key.length r.val.length r.status r.key r.val []
      (by rw [List.drop_zero]
          show flipBit r.encode 3 t = _
          unfold flipBit
          rw [hEnc]
          simp) rfl rfl
      (by simpa using hk) (by simpa using hv) hlen (statusFromU8_toU8 r.status)
    rw [hm, if_pos ?_]
    · rw [hrec]
      have hx := xor_pow_ne (r.crc / 16777216 % 256) t
      have hxlt := xor_pow_lt (r.crc / 16777216 % 256) t (by omega) ht
      omega

/-- A single-bit flip in a key byte of an encoded record makes the
decode fail with `InvalidLogRecordCRC`. -/
theorem read_flip_keyByte_err (r : LogRecord) (fid wo t j : Nat) (ht : t < 8)
    (hj : j < r.key.length)
    (hk : r.key ≠ []) (hv : r.val ≠ [])
    (hk32 : r.key.length < 2 ^ 32) (hv32 : r.val.length < 2 ^ 32)
    (hkb : ∀ b ∈ r.key, b < 256) (hvb : ∀ b ∈ r.val, b < 256) :
    (DataFile.read ⟨fid, wo, flipBit r.encode
      (4 + 1 + lengthDelimiterLen r.key.length + lengthDelimiterLen r.val.length + j) t⟩ 0).1
      = .err .InvalidLogRecordCRC := by
  have hclt : r.crc < 2 ^ 32 := crc_lt r hkb hvb
  have hlen : lengthDelimiterLen r.key.length + lengthDelimiterLen r.val.length ≤ 10 := by
    have h1 := lengthDelimiterLen_le_five r.key.length hk32
    have h2 := lengthDelimiterLen_le_five r.val.length hv32
    omega
  have hP : r.encode
      = (toLE4 r.crc ++ statusToU8 r.status ::
          (lebEncode r.key.length ++ lebEncode r.val.length)) ++ (r.key ++ r.val) := by
    simp [LogRecord.encode, encBody]
  have hPlen : (toLE4 r.crc ++ statusToU8 r.status ::
      (lebEncode r.key.length ++ lebEncode r.val.length)).length
      = 4 + 1 + lengthDelimiterLen r.key.length + lengthDelimiterLen r.val.length := by
    simp [toLE4, lengthDelimiterLen]
    omega
  have hflip : flipBit r.encode
      (4 + 1 + lengthDelimiterLen r.key.length + lengthDelimiterLen r.val.length + j) t
      = (toLE4 r.crc ++ statusToU8 r.status ::
          (lebEncode r.key.length ++ lebEncode r.val.length))
        ++ (r.key.set j (r.key.getD j 0 ^^^ 2 ^ t) ++ r.val) := by
    unfold flipBit
    rw [hP, show 4 + 1 + lengthDelimiterLen r.key.length + lengthDelimiterLen r.val.length + j
        = (toLE4 r.crc ++ statusToU8 r.status ::
            (lebEncode r.key.length ++ lebEncode r.val.length)).length + j from by omega,
      set_append_add, getD_append_add, List.getD_append _ _ _ _ hj,
      List.set_append_left _ _ hj]
  have hm := DataFile.read_decomposed
    ⟨fid, wo, flipBit r.encode
      (4 + 1 + lengthDelimiterLen r.key.length + lengthDelimiterLen r.val.length + j) t⟩ 0
    (r.crc % 256) (r.crc / 256 % 256) (r.crc / 65536 % 256) (r.crc / 16777216 % 256)
    (statusToU8 r.status) r.key.length r.val.length r.status
    (r.key.set j (r.key.getD j 0 ^^^ 2 ^ t)) r.val []
    (by rw [List.drop_zero, hflip]
        simp [toLE4])
    (by simp) rfl (by simpa using hk) (by simpa using hv) hlen (statusFromU8_toU8 r.status)
  rw [hm, if_pos ?_]
  have hne : (LogRecord.mk (r.key.set j (r.key.getD j 0 ^^^ 2 ^ t)) r.val r.status).crc
      ≠ r.crc := by
    have heq : (LogRecord.mk (r.key.set j (r.key.getD j 0 ^^^ 2 ^ t)) r.val r.status).crc
        = crc32 (statusToU8 r.status ::
            (lebEncode r.key.length ++ lebEncode r.val.length
              ++ r.key.set j (r.key.getD j 0 ^^^ 2 ^ t) ++ r.val)) := by
      simp [LogRecord.crc, encBody]
    rw [heq]
    exact crc_encBody_set_key_ne (statusToU8 r.status)
      (lebEncode r.key.length ++ lebEncode r.val.length) r.key r.val j (2 ^ t)
      hj (by positivity) (pow_lt_two_pow_32 t ht)
  have hsum : r.crc % 256 + 256 * (r.crc / 256 % 256) + 65536 * (r.crc / 65536 % 256)
      + 16777216 * (r.crc / 16777216 % 256) = r.crc := by omega
  rw [hsum]
  exact Ne.symm hne

/-- A single-bit flip in a value byte of an encoded record makes the
decode fail with `InvalidLogRecordCRC`. -/
theorem read_flip_valByte_err (r : LogRecord) (fid wo t j : Nat) (ht : t < 8)
    (hj : j < r.val.length)
    (hk : r.key ≠ []) (hv : r.val ≠ [])
    (hk32 : r.key.length < 2 ^ 32) (hv32 : r.val.length < 2 ^ 32)
    (hkb : ∀ b ∈ r.key, b < 256) (hvb : ∀ b ∈ r.val, b < 256) :
    (DataFile.read ⟨fid, wo, flipBit r.encode
      (4 + 1 + lengthDelimiterLen r.key.length + lengthDelimiterLen r.val.length
        + r.key.length + j) t⟩ 0).1
      = .err .InvalidLogRecordCRC := by
  have hclt : r.crc < 2 ^ 32 := crc_lt r hkb hvb
  have hlen : lengthDelimiterLen r.key.length + lengthDelimiterLen r.val.length ≤ 10 := by
    have h1 := lengthDelimiterLen_le_five r.key.length hk32
    have h2 := lengthDelimiterLen_le_five r.val.length hv32
    omega
  have hP : r.encode
      = (toLE4 r.crc ++ statusToU8 r.status ::
          (lebEncode r.key.length ++ lebEncode r.val.length)) ++ (r.key ++ r.val) := by
    simp [LogRecord.encode, encBody]
  have hPlen : (toLE4 r.crc ++ statusToU8 r.status ::
      (lebEncode r.key.length ++ lebEncode r.val.length)).length
      = 4 + 1 + lengthDelimiterLen r.key.length + lengthDelimiterLen r.val.length := by
    simp [toLE4, lengthDelimiterLen]
    omega
  have hflip : flipBit r.encode
      (4 + 1 + lengthDelimiterLen r.key.length + lengthDelimiterLen r.val.length
        + r.key.length + j) t
      = (toLE4 r.crc ++ statusToU8 r.status ::
          (lebEncode r.key.length ++ lebEncode r.val.length))
        ++ (r.key ++ r.val.set j (r.val.getD j 0 ^^^ 2 ^ t)) := by
    unfold flipBit
    rw [hP, show 4 + 1 + lengthDelimiterLen r.key.length + lengthDelimiterLen r.val.length
          + r.key.length + j
        = (toLE4 r.crc ++ statusToU8 r.status ::
            (lebEncode r.key.length ++ lebEncode r.val.length)).length + (r.key.length + j)
        from by omega,
      set_append_add, getD_append_add, getD_append_add, set_append_add]
  have hm := DataFile.read_decomposed
    ⟨fid, wo, flipBit r.encode
      (4 + 1 + lengthDelimiterLen r.key.length + lengthDelimiterLen r.val.length
        + r.key.length + j) t⟩ 0
    (r.crc % 256) (r.crc / 256 % 256) (r.crc / 65536 % 256) (r.crc / 16777216 % 256)
    (statusToU8 r.status) r.key.length r.val.length r.status
    r.key (r.val.set j (r.val.getD j 0 ^^^ 2 ^ t)) []
    (by rw [List.drop_zero, hflip]
        simp [toLE4])
    rfl (by simp) (by simpa using hk) (by simpa using hv) hlen (statusFromU8_toU8 r.status)
  rw [hm, if_pos ?_]
  have hne : (LogRecord.mk r.key (r.val.set j (r.val.getD j 0 ^^^ 2 ^ t)) r.status).crc
      ≠ r.crc := by
    have heq : (LogRecord.mk r.key (r.val.set j (r.val.getD j 0 ^^^ 2 ^ t)) r.status).crc
        = crc32 (statusToU8 r.status ::
            (lebEncode r.key.length ++ lebEncode r.val.length
              ++ r.key ++ r.val.set j (r.val.getD j 0 ^^^ 2 ^ t))) := by
      simp [LogRecord.crc, encBody]
    rw [heq]
    exact crc_encBody_set_val_ne (statusToU8 r.status)
      (lebEncode r.key.length ++ lebEncode r.val.length) r.key r.val j (2 ^ t)
      hj (by positivity) (pow_lt_two_pow_32 t ht)
  have hsum : r.crc % 256 + 256 * (r.crc / 256 % 256) + 65536 * (r.crc / 65536 % 256)
      + 16777216 * (r.crc / 16777216 % 256) = r.crc := by omega
  rw [hsum]
  exact Ne.symm hne

set_option maxRecDepth 8000 in
/-- Counterexample to claim C5 as stated: flipping bit 1 of the status
byte of the encoded record `{key: [107], val: [118], status: Normal}`
turns the status byte 1 into 3, and decode then panics — it does not
fail with `CorruptRecord` (`InvalidLogRecordCRC`). -/
theorem c5_counterexample :
    (DataFile.read ⟨0, 0, flipBit (LogRecord.encode ⟨[107], [118], .Normal⟩) 4 1⟩ 0).1 = .panic
    ∧ (DataFile.read ⟨0, 0, flipBit (LogRecord.encode ⟨[107], [118], .Normal⟩) 4 1⟩ 0).1
        ≠ .err .InvalidLogRecordCRC := by
  exact ⟨by decide, by decide⟩

/-- Claim C5 as amended: for every validly encoded record (non-empty
byte-valued key and value, u32-sized lengths) and every single-bit
flip, (i) a flip in the status byte makes decode panic (process abort)
rather than fail with `CorruptRecord`; (ii) a flip in any of the four
stored checksum bytes makes decode fail with `InvalidLogRecordCRC`;
(iii) a flip in any key byte or (iv) any value byte likewise makes
decode fail with `InvalidLogRecordCRC`.  (Flips in the length-delimiter
bytes are not covered: such a flip can instead produce `EndOfLog`, for
example by turning key_size 1 into 0.) -/
theorem c5_flip_detection (r : LogRecord) (fid wo t : Nat) (ht : t < 8)
    (hk : r.key ≠ []) (hv : r.val ≠ [])
    (hk32 : r.key.length < 2 ^ 32) (hv32 : r.val.length < 2 ^ 32)
    (hkb : ∀ b ∈ r.key, b < 256) (hvb : ∀ b ∈ r.val, b < 256) :
    ((DataFile.read ⟨fid, wo, flipBit r.encode 4 t⟩ 0).1 = .panic)
    ∧ (∀ j, j < 4 →
        (DataFile.read ⟨fid, wo, flipBit r.encode j t⟩ 0).1 = .err .InvalidLogRecordCRC)
    ∧ (∀ j, j < r.key.length →
        (DataFile.read ⟨fid, wo, flipBit r.encode
          (4 + 1 + lengthDelimiterLen r.key.length + lengthDelimiterLen r.val.length + j)
          t⟩ 0).1 = .err .InvalidLogRecordCRC)
    ∧ (∀ j, j < r.val.length →
        (DataFile.read ⟨fid, wo, flipBit r.encode
          (4 + 1 + lengthDelimiterLen r.key.length + lengthDelimiterLen r.val.length
            + r.key.length + j) t⟩ 0).1 = .err .InvalidLogRecordCRC) := by
  refine ⟨?_, ?_, ?_, ?_⟩
  · rw [read_flip_status_panic r fid wo t ht]
  · intro j hj
    exact read_flip_crcByte_err r fid wo t j ht hj hk hv hk32 hv32 hkb hvb
  · intro j hj
    exact read_flip_keyByte_err r fid wo t j ht hj hk hv hk32 hv32 hkb hvb
  · intro j hj
    exact read_flip_valByte_err r fid wo t j ht hj hk hv hk32 hv32 hkb hvb

set_option maxRecDepth 8000 in
/-- Witness for the amended C5: on the record
`{key: [107], val: [118], status: Normal}`, flipping bit 0 of the first
key byte (file index 7) produces `InvalidLogRecordCRC`. -/
theorem c5_witness :
    (DataFile.read ⟨0, 0, flipBit (LogRecord.encode ⟨[107], [118], .Normal⟩) 7 0⟩ 0).1
      = .err .InvalidLogRecordCRC := by
  have h := (c5_flip_detection ⟨[107], [118], .Normal⟩ 0 0 0 (by decide)
    (by decide) (by decide) (by decide) (by decide) (by decide) (by decide)).2.2.1 0 (by decide)
  simpa using h

/-! ## Claim C6 -/

/-- Counterexample to claim C6 as stated: on the buffered file backend,
a read whose requested range `[0, 5)` exceeds the extent (a 2-byte
file) does not fail with `OutOfBounds` — it succeeds as a short read
of 2 bytes. -/
theorem c6_counterexample :
    fileIoRead [1, 2] [0, 0, 0, 0, 0] 0 = .ok ([1, 2, 0, 0, 0], 2)
      ∧ fileIoRead [1, 2] [0, 0, 0, 0, 0] 0 ≠ .err .outOfBounds
      ∧ fileIoRead [1, 2] [0, 0, 0, 0, 0] 0 ≠ .err .unsupported := by
  exact ⟨by decide, by decide, by decide⟩

/-- Claim C6 as amended: the memory-mapped backend is bounds-checked —
a read whose range exceeds the mapping fails with `OutOfBounds`, and an
in-range read fills the whole buffer from the mapping and returns the
buffer length; the buffered file backend never fails on an
out-of-range read — it always succeeds, fills the buffer with the
`min (buffer length) (extent - offset)` available bytes, and returns
that count (0 at or past end of file). -/
theorem c6_read_bounds (m buf c : List Nat) (offset : Nat) :
    (m.length < offset + buf.length → mmapRead m buf offset = .err .outOfBounds)
    ∧ (offset + buf.length ≤ m.length →
        ∃ filled, mmapRead m buf offset = .ok (filled, buf.length)
          ∧ ∀ i, i < buf.length → filled.getD i 0 = m.getD (offset + i) 0)
    ∧ (∀ e, fileIoRead c buf offset ≠ .err e)
    ∧ (∃ filled, fileIoRead c buf offset
          = .ok (filled, min buf.length (c.length - offset))
        ∧ ∀ i, i < min buf.length (c.length - offset) →
            filled.getD i 0 = c.getD (offset + i) 0) := by
  refine ⟨?_, ?_, ?_, ?_⟩
  · intro h
    unfold mmapRead
    rw [if_neg (by omega)]
  · intro h
    refine ⟨(m.drop offset).take buf.length, ?_, ?_⟩
    · unfold mmapRead
      rw [if_pos h]
    · intro i hi
      have hlt : i < ((m.drop offset).take buf.length).length := by
        simp
        omega
      rw [List.getD_eq_getElem _ _ hlt,
        List.getD_eq_getElem _ _ (show offset + i < m.length by omega)]
      simp [List.getElem_take, List.getElem_drop]
  · intro e
    simp [fileIoRead]
  · refine ⟨_, rfl, ?_⟩
    intro i hi
    have hlt : i < ((List.range buf.length).map
        (fun i => if i < min buf.length (c.length - offset) then c.getD (offset + i) 0
                  else buf.getD i 0)).length := by
      simp
      omega
    rw [List.getD_eq_getElem _ _ hlt]
    simp only [List.getElem_map, List.getElem_range]
    rw [if_pos hi]

/-- Witness for the amended C6: an out-of-range mmap read fails with
`OutOfBounds` while the file backend on an out-of-range request
reports a plain short read. -/
theorem c6_witness :
    mmapRead [1, 2, 3] [0, 0] 2 = .err .outOfBounds
      ∧ fileIoRead [1, 2] [0, 0, 0, 0, 0] 0 ≠ .err .outOfBounds :=
  ⟨(c6_read_bounds [1, 2, 3] [0, 0] [1, 2] 2).1 (by decide),
   (c6_read_bounds [1, 2, 3] [0, 0, 0, 0, 0] [1, 2] 0).2.2.1 .outOfBounds⟩

/-! ## Claim C7 -/

/-- Claim C7 fails on the code: `FileIoManager::write` forwards a
single `Write::write` call, whose contract allows consuming fewer
bytes than the input; the code neither retries (no `write_all`) nor
checks the count, so when the underlying call accepts only 1 of the 2
bytes `[7, 8]`, the function reports success with count 1 ≠ 2 and only
the one-byte prefix is appended. -/
theorem c7_partial_write_reported :
    fileIoWrite [] [7, 8] 1 = .ok ([7], 1) ∧ (1 : Nat) ≠ 2 := by
  exact ⟨by decide, by decide⟩

/-! ## Claim C8 -/

/-- Counterexample to claim C8 as stated: `MMapIOManager::write` and
`MMapIOManager::sync` panic (`unimplemented!`) instead of returning an
`Unsupported` error. -/
theorem c8_counterexample :
    mmapWrite [] [1] = .panic ∧ mmapWrite [] [1] ≠ .err .unsupported
      ∧ mmapSync [] = .panic ∧ mmapSync [] ≠ .err .unsupported :=
  ⟨rfl, by decide, rfl, by decide⟩

/-- Claim C8 as amended: for every input, calling `write` or `sync` on
the memory-mapped backend panics via `unimplemented!()` — an aborting
code path, not an explicit `Unsupported` error returned to the caller. -/
theorem c8_mmap_write_sync_panic (m buf : List Nat) :
    mmapWrite m buf = .panic ∧ mmapSync m = .panic :=
  ⟨rfl, rfl⟩

/-! ## Claim C9 -/

/-- Claim C9: the BTree index behaves as a finite map over the
put / get / delete / size sequence of the spec: starting empty,
`put k p1` returns none, `put k p2` then returns `p1`, `get k` returns
`p2`, `delete k` returns `p2`, a final `get k` returns none, and the
sizes along the way are 0, 1, 1, 0. -/
theorem c9_index_semantics (k : List Nat) (p1 p2 : LogRecordPos) :
    btreeSize btreeNew = 0
    ∧ (btreePut btreeNew k p1).2 = none
    ∧ btreeSize (btreePut btreeNew k p1).1 = 1
    ∧ (btreePut (btreePut btreeNew k p1).1 k p2).2 = some p1
    ∧ btreeSize (btreePut (btreePut btreeNew k p1).1 k p2).1 = 1
    ∧ btreeGet (btreePut (btreePut btreeNew k p1).1 k p2).1 k = some p2
    ∧ (btreeDelete (btreePut (btreePut btreeNew k p1).1 k p2).1 k).2 = some p2
    ∧ btreeGet (btreeDelete (btreePut (btreePut btreeNew k p1).1 k p2).1 k).1 k = none
    ∧ btreeSize (btreeDelete (btreePut (btreePut btreeNew k p1).1 k p2).1 k).1 = 0 := by
  simp [btreeNew, btreePut, btreeGet, btreeDelete, btreeSize,
    bmInsert, bmGet, bmRemove, bmLen]

/-! ## Claim C10 -/

/-- Claim C10: `DataFile::read` never changes the `DataFile` state: the
post-state equals the pre-state (in particular `write_offset` and
`file_id` are unchanged) on every path — success, `ReadDataFileEOF`,
`InvalidLogRecordCRC`, or panic. -/
theorem c10_read_frame (df : DataFile) (offset : Nat) :
    ((DataFile.read df offset).2.2).write_offset = df.write_offset
    ∧ ((DataFile.read df offset).2.2).file_id = df.file_id
    ∧ (DataFile.read df offset).2.2 = df := by
  have h : (DataFile.read df offset).2.2 = df := by
    simp only [DataFile.read, fileIoReadZeroed]
    repeat' split
    all_goals rfl
  exact ⟨by rw [h], by rw [h], h⟩

end Bitcask
